import Mathlib

/-!
Shallow embedding of the crawl-and-reconcile engine of the jailscrape
repository (src/scraper/processor.py, src/scraper/database.py,
src/scraper/scraper.py, src/scraper/main.py) together with theorems
settling the frozen claims about its specification.

Python dictionaries are embedded as association lists over a value type
covering the value shapes the pipeline produces (strings, ints, charge
lists, string lists, None).  Timestamps produced by datetime.now() /
datetime.utcnow() are passed in explicitly as string parameters.  The
SQLite table processed_inmates is embedded as a list of rows; each SQL
statement of database.py becomes a pure function on that list.
-/

/-- A charge dictionary as built by scrape_inmate_details
(src/scraper/scraper.py lines 430-452): four text fields, each defaulting
to the empty string on extraction failure. -/
structure Charge where
  description : String
  offense_date : String
  court_reference : String
  disposition : String
deriving DecidableEq

/-- Python values occurring in the records of this pipeline: strings,
ints, lists of charge dicts, lists of strings, and None. -/
inductive Value where
  | vstr (s : String)
  | vnat (n : Nat)
  | vcharges (cs : List Charge)
  | vstrs (l : List String)
  | vnone
deriving DecidableEq

/-- A Python dict, embedded as an association list in insertion order. -/
abbrev Dict := List (String × Value)

/-- Dictionary lookup: d[k] / d.get(k), first binding wins. -/
def dget (d : Dict) (k : String) : Option Value :=
  match d.find? (fun kv => kv.1 == k) with
  | some kv => some kv.2
  | none => none

/-- Dictionary assignment d[k] = v: replace the binding in place when the
key is present, append it otherwise (Python dicts keep insertion order
and keep the original position on overwrite). -/
def dset : Dict → String → Value → Dict
  | [], k, v => [(k, v)]
  | kv :: rest, k, v =>
    if kv.1 == k then (k, v) :: rest else kv :: dset rest k v

/-- Python truthiness of an embedded value. -/
def pytruthy : Value → Bool
  | .vstr s => !(s == "")
  | .vnat n => !(n == 0)
  | .vcharges cs => !cs.isEmpty
  | .vstrs l => !l.isEmpty
  | .vnone => false

/-- Truthiness of d.get(k): a missing key is None, hence falsy. -/
def truthyAt (d : Dict) (k : String) : Bool :=
  match dget d k with
  | some v => pytruthy v
  | none => false

/-- Python dict merge left-to-right, as in the double-splat merge
expression building raw_record from inmate and details in main.py line
150, written with repeated assignment semantics. -/
def pymerge (d1 d2 : Dict) : Dict :=
  d2.foldl (fun acc kv => dset acc kv.1 kv.2) d1

/-- The whitespace class of str.strip() and of the regex class backslash-s
restricted to ASCII, as used on the address strings of this pipeline. -/
def pyIsSpace (c : Char) : Bool :=
  c == ' ' || c == '\t' || c == '\n' || c == '\r' || c == '\x0b' || c == '\x0c'

/-- Python str.strip(): drop leading and trailing whitespace. -/
def pystrip (s : String) : String :=
  String.mk (((s.data.dropWhile pyIsSpace).reverse.dropWhile pyIsSpace).reverse)

/-- Helper for pysplitws: accumulate the current word (reversed). -/
def pysplitwsAux : List Char → List Char → List String
  | [], acc => if acc.isEmpty then [] else [String.mk acc.reverse]
  | c :: cs, acc =>
    if pyIsSpace c then
      if acc.isEmpty then pysplitwsAux cs []
      else String.mk acc.reverse :: pysplitwsAux cs []
    else pysplitwsAux cs (c :: acc)

/-- Python str.split() with no argument: split on whitespace runs,
discarding empty pieces. -/
def pysplitws (s : String) : List String :=
  pysplitwsAux s.data []

/-- Python str.replace applied to the single-character pattern of
processor.py line 37: every line break becomes a comma and a space. -/
def pyreplaceNl (s : String) : String :=
  String.mk (s.data.foldr (fun c acc => if c == '\n' then ',' :: ' ' :: acc else c :: acc) [])

/-- Helper for pysplitc: accumulate the current piece (reversed). -/
def pysplitcAux (sep : Char) : List Char → List Char → List String
  | [], acc => [String.mk acc.reverse]
  | c :: cs, acc =>
    if c == sep then String.mk acc.reverse :: pysplitcAux sep cs []
    else pysplitcAux sep cs (c :: acc)

/-- Python str.split with a one-character separator, as in the
address.split call of processor.py line 38: keeps empty pieces and
returns one (empty) piece for the empty string. -/
def pysplitc (sep : Char) (s : String) : List String :=
  pysplitcAux sep s.data []

/-- Matcher for the zip tail of the processor.py address regex, pattern
piece: five digits optionally followed by a dash and four digits (the
optional group is greedy). Returns the matched zip text. -/
def matchZip : List Char → Option String
  | d1 :: d2 :: d3 :: d4 :: d5 :: rest =>
    if (d1.isDigit && d2.isDigit && d3.isDigit && d4.isDigit && d5.isDigit) then
      match rest with
      | '-' :: e1 :: e2 :: e3 :: e4 :: _ =>
        if (e1.isDigit && e2.isDigit && e3.isDigit && e4.isDigit) then
          some (String.mk [d1, d2, d3, d4, d5, '-', e1, e2, e3, e4])
        else some (String.mk [d1, d2, d3, d4, d5])
      | _ => some (String.mk [d1, d2, d3, d4, d5])
    else none
  | _ => none

/-- Matcher for the part of the address regex after group 1: an optional
comma, then whitespace, then two capital letters (group 2), then
whitespace, then the zip (group 3).  The optional comma is forced: if it
is not consumed the following whitespace class cannot match it. -/
def matchTail (cs : List Char) : Option (String × String) :=
  let cs1 := match cs with
    | ',' :: t => t
    | _ => cs
  if (cs1.takeWhile pyIsSpace).isEmpty then none
  else
    match cs1.dropWhile pyIsSpace with
    | a :: b :: cs3 =>
      if (a.isUpper && b.isUpper) then
        if (cs3.takeWhile pyIsSpace).isEmpty then none
        else
          match matchZip (cs3.dropWhile pyIsSpace) with
          | some z => some (String.mk [a, b], z)
          | none => none
      else none
    | _ => none

/-- Greedy backtracking for group 1 of the address regex (one or more
non-comma characters): try the longest candidate first, where k bounds
the candidate length. -/
def tryG1 : Nat → List Char → Option (String × String × String)
  | 0, _ => none
  | k + 1, cs =>
    let g1 := cs.take (k + 1)
    if (g1.length == k + 1) && g1.all (fun c => !(c == ',')) then
      match matchTail (cs.drop (k + 1)) with
      | some (st, z) => some (String.mk g1, st, z)
      | none => tryG1 k cs
    else tryG1 k cs

/-- Leftmost search for the address regex of processor.py line 54, as
performed by re.search: try to match at each position from the left;
group 1 is greedy at the matching position. -/
def cszSearchFrom : List Char → Option (String × String × String)
  | [] => none
  | c :: cs =>
    match tryG1 ((c :: cs).takeWhile (fun x => !(x == ','))).length (c :: cs) with
    | some r => some r
    | none => cszSearchFrom cs

/-- re.search of the pattern matching a city (group 1), a two-letter
state code (group 2) and a five-digit zip with optional plus-four
(group 3), from processor.py line 54. -/
def cszSearch (s : String) : Option (String × String × String) :=
  cszSearchFrom s.data

/-- The required output fields of structure_inmate_data
(src/scraper/processor.py lines 77-80).  The spec calls the last field
scrape_timestamp; the code key is scrape_timestamp_utc. -/
def requiredFields : List String :=
  ["dob", "street_address", "city", "state", "zip",
   "number_of_charges", "scrape_timestamp_utc"]

/-- One iteration of the required-field default loop of processor.py
lines 82-84: a missing or None field is set to the empty string.
Written as a single pass; for a dict this is the check
field not in d or d[field] is None followed by d[field] = empty. -/
def ensureField : Dict → String → Dict
  | [], f => [(f, Value.vstr "")]
  | kv :: rest, f =>
    if kv.1 == f then
      (if kv.2 == Value.vnone then (f, Value.vstr "") :: rest else kv :: rest)
    else kv :: ensureField rest f

/-- The required-field default loop of processor.py lines 82-84. -/
def ensureRequired (s : Dict) : Dict :=
  requiredFields.foldl ensureField s

/-- The address-parsing block of structure_inmate_data
(src/scraper/processor.py lines 34-64) applied to a string address:
replace line breaks by comma-space, split on commas, then assign street,
city, state and zip according to the number of parts.  In the two-part
branch the regex is tried against the stripped second part; group
strings are stripped on assignment. -/
def parseAddress (s : Dict) (a : String) : Dict :=
  let a := pyreplaceNl a
  let parts := pysplitc ',' a
  if parts.length ≥ 3 then
    let s := dset s "street_address" (Value.vstr (pystrip (parts.getD 0 "")))
    let s := dset s "city" (Value.vstr (pystrip (parts.getD 1 "")))
    let state_zip := pysplitws (pystrip (parts.getD 2 ""))
    if state_zip.length ≥ 2 then
      let s := dset s "state" (Value.vstr (pystrip (state_zip.getD 0 "")))
      dset s "zip" (Value.vstr (pystrip (state_zip.getD (state_zip.length - 1) "")))
    else s
  else if parts.length == 2 then
    let s := dset s "street_address" (Value.vstr (pystrip (parts.getD 0 "")))
    let location := pystrip (parts.getD 1 "")
    match cszSearch location with
    | some (c, st, z) =>
      let s := dset s "city" (Value.vstr (pystrip c))
      let s := dset s "state" (Value.vstr (pystrip st))
      dset s "zip" (Value.vstr (pystrip z))
    | none => s
  else
    dset s "street_address" (Value.vstr a)

/-- The tail of structure_inmate_data after the address block
(src/scraper/processor.py lines 66-86): number_of_charges is the length
of the charges value when that value is a Python list and 0 otherwise,
the scrape timestamp is added when absent, and the required-field
defaults are applied. -/
def structure_tail (tNow : String) (s : Dict) : Dict :=
  let s :=
    match dget s "charges" with
    | some (.vcharges cs) => dset s "number_of_charges" (Value.vnat cs.length)
    | some (.vstrs l) => dset s "number_of_charges" (Value.vnat l.length)
    | _ => dset s "number_of_charges" (Value.vnat 0)
  let s :=
    if (dget s "scrape_timestamp_utc").isSome then s
    else dset s "scrape_timestamp_utc" (Value.vstr tNow)
  ensureRequired s

/-- structure_inmate_data (src/scraper/processor.py lines 14-91).  The
timestamp taken by datetime.utcnow() is the explicit parameter tNow.
The address block runs when the address key is present and truthy and
city, state and zip are not all already truthy; for a non-string
address value the attribute access address.replace raises and the
except branch of line 62 stores the raw value as street_address.  The
outer except of line 88 is unreachable: every operation outside the
inner try is total on the embedded values. -/
def structure_inmate_data (tNow : String) (d : Dict) : Dict :=
  let s := d
  let s :=
    match dget s "address" with
    | some v =>
      if pytruthy v then
        if !(truthyAt s "city" && truthyAt s "state" && truthyAt s "zip") then
          match v with
          | .vstr a => parseAddress s a
          | _ => dset s "street_address" v
        else s
      else s
    | none => s
  structure_tail tNow s

/-- A row of the processed_inmates table created by initialize_database
(src/scraper/database.py lines 31-38): name_number is the primary key,
date_released stays NULL until the inmate is marked released. -/
structure Row where
  name_number : String
  first_seen_timestamp : String
  last_seen_timestamp : String
  date_released : Option String
deriving DecidableEq

/-- The processed_inmates table, one Row per record. -/
abbrev Store := List Row

/-- load_processed_ids (src/scraper/scraper.py lines 48-89), success
path: SELECT name_number FROM processed_inmates, i.e. every stored
identifier, released or not. -/
def load_processed_ids (s : Store) : List String :=
  s.map Row.name_number

/-- Whether a store is well formed: name_number is a primary key, so no
two rows share an identifier. -/
def WF (s : Store) : Prop :=
  (s.map Row.name_number).Nodup

/-- The first stored row for an identifier, as selected by the
WHERE name_number = ? queries of database.py. -/
def getRow (id : String) (s : Store) : Option Row :=
  s.find? (fun r => r.name_number == id)

/-- How many rows a store holds for an identifier. -/
def countId (id : String) (s : Store) : Nat :=
  (s.filter (fun r => r.name_number == id)).length

/-- Identifiers stored with date_released unset, the storedActive set of
the spec reconciliation algorithm. -/
def activeIds (s : Store) : List String :=
  (s.filter (fun r => r.date_released.isNone)).map Row.name_number

/-- mark_inmate_processed (src/scraper/database.py lines 82-117):
INSERT OR IGNORE of a row whose first_seen_timestamp and
last_seen_timestamp are both the current timestamp t and whose
date_released is NULL. -/
def mark_inmate_processed (t : String) (id : String) (s : Store) : Store :=
  if s.any (fun r => r.name_number == id) then s
  else s ++ [⟨id, t, t, none⟩]

/-- update_last_seen (src/scraper/database.py lines 119-172): no-op on
an empty id set, otherwise UPDATE last_seen_timestamp to the current
timestamp t for every row whose name_number is in the set. -/
def update_last_seen (t : String) (current : List String) (s : Store) : Store :=
  if current.isEmpty then s
  else s.map (fun r =>
    if current.contains r.name_number then { r with last_seen_timestamp := t } else r)

/-- find_released_inmates (src/scraper/database.py lines 174-228):
select the name_numbers with date_released NULL that are not on the
current roster (all NULL rows when the roster set is empty, matching
the conditional-expression branch of lines 193-202), then UPDATE
date_released to the current timestamp t for the selected rows.
Returns the selected list and the updated store. -/
def find_released_inmates (t : String) (current : List String) (s : Store) :
    List String × Store :=
  let released :=
    if current.isEmpty then
      (s.filter (fun r => r.date_released.isNone)).map Row.name_number
    else
      (s.filter (fun r =>
        r.date_released.isNone && !(current.contains r.name_number))).map Row.name_number
  (released,
   s.map (fun r =>
     if released.contains r.name_number then { r with date_released := some t } else r))

/-- Result of one reconciliation run: the identifiers classified as new,
the identifiers marked released, and the store after the run. -/
structure RunResult where
  newIds : List String
  released : List String
  store : Store
deriving DecidableEq

/-- The store-level reconciliation of run_hourly_scrape
(src/scraper/main.py lines 111-188): load the processed ids, classify
each roster identifier as new when it is absent from that set, mark
every new identifier processed during the loop (whether or not its
detail scrape succeeds, lines 158 and 164), then update last_seen for
the roster set, then compute and mark the released set.  The
timestamps taken inside the three database calls are the parameters
tMark, tSeen and tRel. -/
def run_hourly_scrape (tMark tSeen tRel : String) (s : Store) (current : List String) :
    RunResult :=
  let processed := load_processed_ids s
  let newIds := current.filter (fun id => !(processed.contains id))
  let s1 := newIds.foldl (fun st id => mark_inmate_processed tMark id st) s
  let s2 := update_last_seen tSeen current s1
  let p := find_released_inmates tRel current s2
  ⟨newIds, p.1, p.2⟩

/-- Modelled from the spec: the Reconciler contract of spec section 4.3
computes newIds as currentIdentifiers minus storedActiveIdentifiers,
where storedActiveIdentifiers are the identifiers with released_ts
unset.  Defined from the words of the spec for comparison with the
code, which subtracts all stored identifiers instead. -/
def spec_newIds (s : Store) (current : List String) : List String :=
  current.filter (fun id => !((activeIds s).contains id))

/-- The charge-list cap of scrape_inmate_details
(src/scraper/scraper.py line 429): only the first five charge elements
found by the working selector are extracted, each into a Charge whose
field texts are already resolved here. -/
def scrape_charges (charge_elements : List Charge) : List Charge :=
  charge_elements.take 5

/-- The details dict assembled by the success path of
scrape_inmate_details (src/scraper/scraper.py lines 362-474), with the
extracted texts for dob, address, city, state and zip abstracted as
parameters, the charge elements found by the working charge selector
given as charge_elements, and the datetime.utcnow() timestamp given as
tScrape.  number_of_charges is the length of the extracted (capped)
charge list, line 464. -/
def scrape_inmate_details_dict (tScrape dob address city state zip : String)
    (missing : List String) (charge_elements : List Charge) : Dict :=
  let charges := scrape_charges charge_elements
  [("dob", Value.vstr dob), ("address", Value.vstr address),
   ("city", Value.vstr city), ("state", Value.vstr state), ("zip", Value.vstr zip),
   ("charges", Value.vcharges charges),
   ("number_of_charges", Value.vnat charges.length),
   ("scrape_timestamp_utc", Value.vstr tScrape),
   ("missing_fields", Value.vstrs missing)]

/-- The items of a charge dict in insertion order, as iterated by
charge.items() in write_to_csv (src/scraper/processor.py line 162). -/
def charge_items (c : Charge) : List (String × String) :=
  [("description", c.description), ("offense_date", c.offense_date),
   ("court_reference", c.court_reference), ("disposition", c.disposition)]

/-- The column assignments performed by the nested charge loops of
write_to_csv (src/scraper/processor.py lines 159-163), in loop order:
for each of the first three charges, one chargeN_field column per
charge item. -/
def charge_cols (cs : List Charge) : List (String × Value) :=
  (cs.take 3).enum.flatMap (fun p =>
    (charge_items p.2).map (fun kv =>
      ("charge" ++ toString (p.1 + 1) ++ "_" ++ kv.1, Value.vstr kv.2)))

/-- Flattening of one structured record in write_to_csv
(src/scraper/processor.py lines 153-165): drop the charges key, then,
when the charges value is present and truthy, assign the chargeN_field
columns of the first three charges in loop order.  A present truthy
charges value that is not a charge list makes the charge loop raise
(str and int values have no items attribute, ints are not iterable),
which the except of line 191 turns into a failed call: that is the
none result. -/
def flatten_record (r : Dict) : Option Dict :=
  let flat := r.filter (fun kv => !(kv.1 == "charges"))
  match dget r "charges" with
  | some v =>
    if pytruthy v then
      match v with
      | .vcharges cs =>
        some ((charge_cols cs).foldl (fun acc kv => dset acc kv.1 kv.2) flat)
      | _ => none
    else some flat
  | none => some flat

/-- A line of the output CSV file: either the single header line or a
data row.  A data row keeps, for every header-independent field name of
its batch, the looked-up value (none when the record lacks the field;
csv.DictWriter then writes the empty restval). -/
inductive CsvLine where
  | header (cells : List String)
  | row (cells : List (Option Value))
deriving DecidableEq

/-- The output file: none when the file does not exist, otherwise its
list of lines. -/
abbrev FileState := Option (List CsvLine)

/-- The header test of write_to_csv (src/scraper/processor.py line 176):
the file exists and has nonzero size. -/
def file_exists_nonempty : FileState → Bool
  | none => false
  | some ls => !ls.isEmpty

/-- Insertion of a string into a lexicographically sorted list. -/
def insertSorted (x : String) : List String → List String
  | [] => [x]
  | y :: ys => if x ≤ y then x :: y :: ys else y :: insertSorted x ys

/-- sorted() over the collected field names of write_to_csv
(src/scraper/processor.py line 173). -/
def sortStrings (l : List String) : List String :=
  l.foldr insertSorted []

/-- The field-name union of write_to_csv (src/scraper/processor.py
lines 168-173): every key of every flattened record, without
duplicates, sorted lexicographically. -/
def unionKeys (rs : List Dict) : List String :=
  sortStrings ((rs.foldl (fun acc r => acc ++ r.map Prod.fst) []).dedup)

/-- write_to_csv (src/scraper/processor.py lines 124-193) on a file
state: an empty batch returns False and leaves the file alone (line
135); each record is structured then flattened; a flattening error
returns False before the file is opened; otherwise the file is opened
in append mode (creating it when absent), the sorted key union becomes
the header only when the file did not exist or was empty, and one data
row per record is appended in batch order. -/
def write_to_csv (tNow : String) (records : List Dict) (f : FileState) :
    Bool × FileState :=
  if records.isEmpty then (false, f)
  else
    match records.mapM (fun r => flatten_record (structure_inmate_data tNow r)) with
    | none => (false, f)
    | some flats =>
      let fieldnames := unionKeys flats
      let headerLines :=
        if file_exists_nonempty f then [] else [CsvLine.header fieldnames]
      let rows := flats.map (fun r => CsvLine.row (fieldnames.map (fun k => dget r k)))
      (true, some ((f.getD []) ++ headerLines ++ rows))

/-- The header lines of a file, in order. -/
def headersOf (f : FileState) : List (List String) :=
  (f.getD []).filterMap (fun l =>
    match l with
    | .header cs => some cs
    | .row _ => none)

/-- The name_number a roster record carries, as read by
inmate["name_number"] in main.py line 138; scrape_main_roster only
emits records with a nonempty string there (scraper.py line 233). -/
def inmate_name_number (d : Dict) : String :=
  match dget d "name_number" with
  | some (.vstr s) => s
  | _ => ""

/-- The per-inmate loop of run_hourly_scrape (src/scraper/main.py lines
137-164): an inmate already in processed_ids is skipped; otherwise the
detail scrape (abstracted as the oracle detailsOf, none on failure) is
attempted; on success the merged record is structured, stamped with
timestamp_processed_utc and collected, and the inmate is marked
processed; on failure the inmate is only marked processed.  Returns
the collected new records and the store after the loop. -/
def process_roster (tNow tProc tMark : String) (detailsOf : String → Option Dict)
    (processed : List String) (inmates : List Dict) (st : Store) :
    List Dict × Store :=
  inmates.foldl (fun acc inmate =>
    let nn := inmate_name_number inmate
    if processed.contains nn then acc
    else
      match detailsOf nn with
      | some det =>
        (acc.1 ++ [dset (structure_inmate_data tNow (pymerge inmate det))
          "timestamp_processed_utc" (Value.vstr tProc)],
         mark_inmate_processed tMark nn acc.2)
      | none => (acc.1, mark_inmate_processed tMark nn acc.2))
    ([], st)

theorem dget_dset (d : Dict) (k k' : String) (v : Value) :
    dget (dset d k v) k' = if k' = k then some v else dget d k' := by
  induction d with
  | nil =>
    by_cases hk' : k' = k
    · simp [dset, dget, List.find?_cons, hk']
    · have : ((k, v).1 == k') = false := by
        simp [beq_eq_false_iff_ne]
        exact fun hc => hk' hc.symm
      simp [dset, dget, List.find?_cons, this, hk']
  | cons kv rest ih =>
    by_cases hhead : kv.1 = k
    · have hb : (kv.1 == k) = true := beq_iff_eq.mpr hhead
      by_cases hk' : k' = k
      · subst hk'
        simp [dset, dget, hb, List.find?_cons]
      · have h1 : ((k, v).1 == k') = false := by
          simp [beq_eq_false_iff_ne]
          exact fun hc => hk' hc.symm
        have h2 : (kv.1 == k') = false := by
          simp [beq_eq_false_iff_ne, hhead]
          exact fun hc => hk' hc.symm
        simp [dset, dget, hb, List.find?_cons, h1, h2, hk']
    · have hb : (kv.1 == k) = false := by simp [beq_eq_false_iff_ne, hhead]
      by_cases hk2 : kv.1 = k'
      · have hb2 : (kv.1 == k') = true := beq_iff_eq.mpr hk2
        have hk'k : ¬ k' = k := by
          intro hc
          exact hhead (hk2.trans hc)
        simp [dset, dget, hb, hb2, List.find?_cons, hk'k]
      · have hb2 : (kv.1 == k') = false := by simp [beq_eq_false_iff_ne, hk2]
        simp only [dset, hb, Bool.false_eq_true, if_false]
        simp only [dget, List.find?_cons, hb2]
        simp only [dget] at ih
        exact ih

theorem dget_dset_self (d : Dict) (k : String) (v : Value) :
    dget (dset d k v) k = some v := by
  simp [dget_dset]

theorem dget_dset_ne (d : Dict) (k k' : String) (v : Value) (h : k' ≠ k) :
    dget (dset d k v) k' = dget d k' := by
  simp [dget_dset, h]

theorem dget_ensureField_self (s : Dict) (f : String) :
    dget (ensureField s f) f =
      match dget s f with
      | some v => if v = Value.vnone then some (Value.vstr "") else some v
      | none => some (Value.vstr "") := by
  induction s with
  | nil => simp [ensureField, dget, List.find?_cons]
  | cons kv rest ih =>
    by_cases hk : kv.1 = f
    · have hb : (kv.1 == f) = true := beq_iff_eq.mpr hk
      by_cases hv : kv.2 = Value.vnone
      · have hbv : (kv.2 == Value.vnone) = true := beq_iff_eq.mpr hv
        simp [ensureField, hb, hbv, dget, List.find?_cons, hv]
      · have hbv : (kv.2 == Value.vnone) = false := by simp [beq_eq_false_iff_ne, hv]
        simp [ensureField, hb, hbv, dget, List.find?_cons, hv]
    · have hb : (kv.1 == f) = false := by simp [beq_eq_false_iff_ne, hk]
      simp only [ensureField, hb, Bool.false_eq_true, if_false]
      simp only [dget, List.find?_cons, hb] at ih ⊢
      exact ih

theorem dget_ensureField_ne (s : Dict) (f g : String) (h : g ≠ f) :
    dget (ensureField s f) g = dget s g := by
  have hfg : (f == g) = false := by
    simp [beq_eq_false_iff_ne]
    exact fun hc => h hc.symm
  induction s with
  | nil => simp [ensureField, dget, List.find?_cons, hfg]
  | cons kv rest ih =>
    by_cases hk : kv.1 = f
    · have hb : (kv.1 == f) = true := beq_iff_eq.mpr hk
      have hbg : (kv.1 == g) = false := by
        simp [beq_eq_false_iff_ne, hk]
        exact fun hc => h hc.symm
      by_cases hv : kv.2 = Value.vnone
      · have hbv : (kv.2 == Value.vnone) = true := beq_iff_eq.mpr hv
        simp [ensureField, hb, hbv, dget, List.find?_cons, hbg, hfg]
      · have hbv : (kv.2 == Value.vnone) = false := by simp [beq_eq_false_iff_ne, hv]
        simp [ensureField, hb, hbv, dget, List.find?_cons, hbg]
    · have hb : (kv.1 == f) = false := by simp [beq_eq_false_iff_ne, hk]
      simp only [ensureField, hb, Bool.false_eq_true, if_false]
      by_cases hkg : kv.1 = g
      · have hbg : (kv.1 == g) = true := beq_iff_eq.mpr hkg
        simp [dget, List.find?_cons, hbg]
      · have hbg : (kv.1 == g) = false := by simp [beq_eq_false_iff_ne, hkg]
        simp only [dget, List.find?_cons, hbg] at ih ⊢
        exact ih

theorem ensure_fold_preserves (l : List String) (s : Dict) (f : String) (v : Value)
    (h : dget s f = some v) (hv : v ≠ Value.vnone) :
    dget (l.foldl ensureField s) f = some v := by
  induction l generalizing s with
  | nil => simpa using h
  | cons g t ih =>
    simp only [List.foldl_cons]
    apply ih
    by_cases hg : g = f
    · subst hg
      rw [dget_ensureField_self, h]
      simp [hv]
    · rw [dget_ensureField_ne s g f (fun hc => hg hc.symm)]
      exact h

theorem ensure_fold_mem (l : List String) (s : Dict) (f : String) (hf : f ∈ l) :
    ∃ v, dget (l.foldl ensureField s) f = some v ∧ v ≠ Value.vnone := by
  induction l generalizing s with
  | nil => cases hf
  | cons g t ih =>
    simp only [List.foldl_cons]
    by_cases hg : f = g
    · subst hg
      have hself := dget_ensureField_self s f
      cases hfd : dget s f with
      | none =>
        rw [hfd] at hself
        dsimp only at hself
        exact ⟨Value.vstr "", ensure_fold_preserves t _ f _ hself (by simp), by simp⟩
      | some v =>
        rw [hfd] at hself
        dsimp only at hself
        by_cases hv : v = Value.vnone
        · rw [if_pos hv] at hself
          exact ⟨Value.vstr "", ensure_fold_preserves t _ f _ hself (by simp), by simp⟩
        · rw [if_neg hv] at hself
          exact ⟨v, ensure_fold_preserves t _ f _ hself hv, hv⟩
    · exact ih _ ((List.mem_cons.mp hf).resolve_left hg)

theorem ensure_fold_of_none (l : List String) (s : Dict) (f : String)
    (h : dget s f = none) (hf : f ∈ l) :
    dget (l.foldl ensureField s) f = some (Value.vstr "") := by
  induction l generalizing s with
  | nil => cases hf
  | cons g t ih =>
    simp only [List.foldl_cons]
    by_cases hg : g = f
    · subst hg
      have hself := dget_ensureField_self s g
      rw [h] at hself
      dsimp only at hself
      exact ensure_fold_preserves t _ g _ hself (by simp)
    · have hft : f ∈ t := by
        rcases List.mem_cons.mp hf with h1 | h1
        · exact absurd h1.symm hg
        · exact h1
      have hpres : dget (ensureField s g) f = none := by
        rw [dget_ensureField_ne s g f (fun hc => hg hc.symm)]
        exact h
      exact ih _ hpres hft

/-- C6: for every input record, normalization (structure_inmate_data)
terminates with a result that contains every field of the required set
(dob, street_address, city, state, zip, number_of_charges and the
scrape timestamp) bound to a non-None value; absent fields receive the
empty-string default.  The embedded function is total, matching the
fact that no operation reachable outside the inner address try block
can raise. -/
theorem c6_normalization_required_fields (tNow : String) (d : Dict) (f : String)
    (hf : f ∈ requiredFields) :
    ∃ v, dget (structure_inmate_data tNow d) f = some v ∧ v ≠ Value.vnone := by
  unfold structure_inmate_data structure_tail ensureRequired
  exact ensure_fold_mem requiredFields _ f hf

/-- Witness for C6: the empty record, field dob. -/
theorem c6_normalization_required_fields_witness :
    "dob" ∈ requiredFields ∧
      ∃ v, dget (structure_inmate_data "T" []) "dob" = some v ∧ v ≠ Value.vnone :=
  ⟨by decide, c6_normalization_required_fields "T" [] "dob" (by decide)⟩

theorem structure_tail_preserves (tNow : String) (s : Dict) (k : String) (v : Value)
    (hk1 : k ≠ "number_of_charges") (hk2 : k ≠ "scrape_timestamp_utc")
    (h : dget s k = some v) (hv : v ≠ Value.vnone) :
    dget (structure_tail tNow s) k = some v := by
  unfold structure_tail ensureRequired
  have step1 : ∀ s' : Dict, dget s' k = some v →
      dget (match dget s' "charges" with
        | some (.vcharges cs) => dset s' "number_of_charges" (Value.vnat cs.length)
        | some (.vstrs l) => dset s' "number_of_charges" (Value.vnat l.length)
        | _ => dset s' "number_of_charges" (Value.vnat 0)) k = some v := by
    intro s' h'
    cases hch : dget s' "charges" with
    | none => rw [dget_dset_ne _ _ _ _ hk1]; exact h'
    | some w =>
      cases w <;> (rw [dget_dset_ne _ _ _ _ hk1]; exact h')
  have step2 : ∀ s' : Dict, dget s' k = some v →
      dget (if (dget s' "scrape_timestamp_utc").isSome then s'
        else dset s' "scrape_timestamp_utc" (Value.vstr tNow)) k = some v := by
    intro s' h'
    by_cases hts : (dget s' "scrape_timestamp_utc").isSome
    · simpa [hts] using h'
    · rw [if_neg hts]
      rw [dget_dset_ne _ _ _ _ hk2]
      exact h'
  exact ensure_fold_preserves requiredFields _ k v (step2 _ (step1 _ h)) hv

theorem structure_tail_of_none (tNow : String) (s : Dict) (k : String)
    (hk1 : k ≠ "number_of_charges") (hk2 : k ≠ "scrape_timestamp_utc")
    (hmem : k ∈ requiredFields) (h : dget s k = none) :
    dget (structure_tail tNow s) k = some (Value.vstr "") := by
  unfold structure_tail ensureRequired
  have step1 : ∀ s' : Dict, dget s' k = none →
      dget (match dget s' "charges" with
        | some (.vcharges cs) => dset s' "number_of_charges" (Value.vnat cs.length)
        | some (.vstrs l) => dset s' "number_of_charges" (Value.vnat l.length)
        | _ => dset s' "number_of_charges" (Value.vnat 0)) k = none := by
    intro s' h'
    cases hch : dget s' "charges" with
    | none => rw [dget_dset_ne _ _ _ _ hk1]; exact h'
    | some w =>
      cases w <;> (rw [dget_dset_ne _ _ _ _ hk1]; exact h')
  have step2 : ∀ s' : Dict, dget s' k = none →
      dget (if (dget s' "scrape_timestamp_utc").isSome then s'
        else dset s' "scrape_timestamp_utc" (Value.vstr tNow)) k = none := by
    intro s' h'
    by_cases hts : (dget s' "scrape_timestamp_utc").isSome
    · simpa [hts] using h'
    · rw [if_neg hts]
      rw [dget_dset_ne _ _ _ _ hk2]
      exact h'
  exact ensure_fold_of_none requiredFields _ k (step2 _ (step1 _ h)) hmem

/-- Counterexample for C7: the address splits into exactly two
comma-separated parts and the second part does not match the
city-state-zip regex, yet normalization stores only the first part,
123 Main St, as street_address, not the whole original address
string. -/
theorem c7_counterexample :
    ((pysplitc ',' (pyreplaceNl "123 Main St, Anywhere")).length = 2
      ∧ cszSearch (pystrip ((pysplitc ',' (pyreplaceNl "123 Main St, Anywhere")).getD 1 "")) = none)
    ∧ dget (structure_inmate_data "T" [("address", Value.vstr "123 Main St, Anywhere")])
        "street_address" = some (Value.vstr "123 Main St")
    ∧ ¬ dget (structure_inmate_data "T" [("address", Value.vstr "123 Main St, Anywhere")])
        "street_address" = some (Value.vstr "123 Main St, Anywhere") := by decide

/-- C7 as amended: for an address that splits into exactly two
comma-separated parts whose second part does not match the
city-state-zip regex, and whose record does not already carry city,
state or zip, normalization keeps the FIRST comma-part, stripped, as
street_address (not the whole address string), and city, state and zip
are left at their empty defaults. -/
theorem c7_two_part_no_match (tNow a : String) (d : Dict)
    (haddr : dget d "address" = some (Value.vstr a))
    (hparts : (pysplitc ',' (pyreplaceNl a)).length = 2)
    (hm : cszSearch (pystrip ((pysplitc ',' (pyreplaceNl a)).getD 1 "")) = none)
    (hcity : dget d "city" = none) (hstate : dget d "state" = none)
    (hzip : dget d "zip" = none) :
    dget (structure_inmate_data tNow d) "street_address"
        = some (Value.vstr (pystrip ((pysplitc ',' (pyreplaceNl a)).getD 0 "")))
      ∧ dget (structure_inmate_data tNow d) "city" = some (Value.vstr "")
      ∧ dget (structure_inmate_data tNow d) "state" = some (Value.vstr "")
      ∧ dget (structure_inmate_data tNow d) "zip" = some (Value.vstr "") := by
  have ha : ¬ a = "" := by
    intro hc
    subst hc
    revert hparts
    decide
  have hstep : structure_inmate_data tNow d = structure_tail tNow (parseAddress d a) := by
    simp only [structure_inmate_data, haddr, truthyAt, hcity, pytruthy]
    simp [ha]
  have hpa : parseAddress d a
      = dset d "street_address"
          (Value.vstr (pystrip ((pysplitc ',' (pyreplaceNl a)).getD 0 ""))) := by
    simp only [parseAddress, hparts, hm]
    norm_num
  rw [hstep, hpa]
  refine ⟨?_, ?_, ?_, ?_⟩
  · exact structure_tail_preserves tNow _ _ _ (by decide) (by decide)
      (dget_dset_self _ _ _) (by simp)
  · exact structure_tail_of_none tNow _ _ (by decide) (by decide) (by decide)
      (by rw [dget_dset_ne _ _ _ _ (by decide)]; exact hcity)
  · exact structure_tail_of_none tNow _ _ (by decide) (by decide) (by decide)
      (by rw [dget_dset_ne _ _ _ _ (by decide)]; exact hstate)
  · exact structure_tail_of_none tNow _ _ (by decide) (by decide) (by decide)
      (by rw [dget_dset_ne _ _ _ _ (by decide)]; exact hzip)

/-- Witness for C7 as amended: the concrete address of the
counterexample record. -/
theorem c7_two_part_no_match_witness :
    dget (structure_inmate_data "T" [("address", Value.vstr "123 Main St, Anywhere")])
        "street_address"
      = some (Value.vstr (pystrip ((pysplitc ','
          (pyreplaceNl "123 Main St, Anywhere")).getD 0 ""))) :=
  (c7_two_part_no_match "T" "123 Main St, Anywhere"
    [("address", Value.vstr "123 Main St, Anywhere")]
    (by decide) (by decide) (by decide) (by decide) (by decide) (by decide)).1

/-- Python membership test key in d for the embedded dicts. -/
def containsKey (d : Dict) (k : String) : Bool :=
  (dget d k).isSome

theorem dget_filter_ne (r : Dict) (k0 k : String) (h : k ≠ k0) :
    dget (r.filter (fun kv => !(kv.1 == k0))) k = dget r k := by
  induction r with
  | nil => rfl
  | cons kv rest ih =>
    by_cases hk : kv.1 = k0
    · have hb : (kv.1 == k0) = true := beq_iff_eq.mpr hk
      have hbk : (kv.1 == k) = false := by
        simp [beq_eq_false_iff_ne, hk]
        exact fun hc => h hc.symm
      simp only [List.filter_cons, hb, Bool.not_true, Bool.false_eq_true, if_false]
      simp only [dget, List.find?_cons, hbk] at ih ⊢
      exact ih
    · have hb : (kv.1 == k0) = false := by simp [beq_eq_false_iff_ne, hk]
      simp only [List.filter_cons, hb, Bool.not_false, if_true]
      by_cases hkk : kv.1 = k
      · have hbk : (kv.1 == k) = true := beq_iff_eq.mpr hkk
        simp [dget, List.find?_cons, hbk]
      · have hbk : (kv.1 == k) = false := by simp [beq_eq_false_iff_ne, hkk]
        simp only [dget, List.find?_cons, hbk] at ih ⊢
        exact ih

theorem dget_foldl_dset_not_mem (L : List (String × Value)) (d : Dict) (k : String)
    (h : ¬ k ∈ L.map Prod.fst) :
    dget (L.foldl (fun acc kv => dset acc kv.1 kv.2) d) k = dget d k := by
  induction L generalizing d with
  | nil => rfl
  | cons kv rest ih =>
    simp only [List.map_cons, List.mem_cons, not_or] at h
    simp only [List.foldl_cons]
    rw [ih _ h.2, dget_dset_ne _ _ _ _ h.1]

theorem containsKey_foldl_dset (L : List (String × Value)) (d : Dict) (k : String) :
    containsKey (L.foldl (fun acc kv => dset acc kv.1 kv.2) d) k
      = (containsKey d k || (L.map Prod.fst).contains k) := by
  induction L generalizing d with
  | nil => simp
  | cons kv rest ih =>
    simp only [List.foldl_cons, ih, List.map_cons]
    by_cases hk : k = kv.1
    · subst hk
      simp [containsKey, dget_dset]
    · rw [show containsKey (dset d kv.1 kv.2) k = containsKey d k by
        simp [containsKey, dget_dset_ne _ _ _ _ hk]]
      have : (k == kv.1) = false := by simp [beq_eq_false_iff_ne, hk]
      simp [List.contains_cons, this]

theorem ensure_fold_ne (l : List String) (s : Dict) (k : String) (h : ¬ k ∈ l) :
    dget (l.foldl ensureField s) k = dget s k := by
  induction l generalizing s with
  | nil => rfl
  | cons g t ih =>
    simp only [List.mem_cons, not_or] at h
    simp only [List.foldl_cons]
    rw [ih _ h.2, dget_ensureField_ne _ _ _ h.1]

theorem structure_tail_pres_other (tNow : String) (s : Dict) (k : String)
    (hk : ¬ k ∈ requiredFields) :
    dget (structure_tail tNow s) k = dget s k := by
  have hk1 : k ≠ "number_of_charges" := by
    intro hc
    exact hk (by rw [hc]; decide)
  have hk2 : k ≠ "scrape_timestamp_utc" := by
    intro hc
    exact hk (by rw [hc]; decide)
  unfold structure_tail ensureRequired
  rw [ensure_fold_ne _ _ _ hk]
  have step1 : ∀ s' : Dict,
      dget (match dget s' "charges" with
        | some (.vcharges cs) => dset s' "number_of_charges" (Value.vnat cs.length)
        | some (.vstrs l) => dset s' "number_of_charges" (Value.vnat l.length)
        | _ => dset s' "number_of_charges" (Value.vnat 0)) k = dget s' k := by
    intro s'
    cases hch : dget s' "charges" with
    | none => rw [dget_dset_ne _ _ _ _ hk1]
    | some w => cases w <;> rw [dget_dset_ne _ _ _ _ hk1]
  by_cases hts : (dget (match dget s "charges" with
      | some (.vcharges cs) => dset s "number_of_charges" (Value.vnat cs.length)
      | some (.vstrs l) => dset s "number_of_charges" (Value.vnat l.length)
      | _ => dset s "number_of_charges" (Value.vnat 0)) "scrape_timestamp_utc").isSome
  · rw [if_pos hts, step1]
  · rw [if_neg hts, dget_dset_ne _ _ _ _ hk2, step1]

theorem structure_tail_num (tNow : String) (s : Dict) (cs : List Charge)
    (hch : dget s "charges" = some (Value.vcharges cs)) :
    dget (structure_tail tNow s) "number_of_charges" = some (Value.vnat cs.length) := by
  unfold structure_tail ensureRequired
  rw [hch]
  dsimp only
  have h1 : dget (dset s "number_of_charges" (Value.vnat cs.length)) "number_of_charges"
      = some (Value.vnat cs.length) := dget_dset_self _ _ _
  by_cases hts : (dget (dset s "number_of_charges" (Value.vnat cs.length))
      "scrape_timestamp_utc").isSome
  · rw [if_pos hts]
    exact ensure_fold_preserves _ _ _ _ h1 (by simp)
  · rw [if_neg hts]
    exact ensure_fold_preserves _ _ _ _
      (by rw [dget_dset_ne _ _ _ _ (by decide)]; exact h1) (by simp)

theorem structure_skip_address (tNow : String) (d : Dict)
    (h : dget d "address" = some (Value.vstr "")) :
    structure_inmate_data tNow d = structure_tail tNow d := by
  simp only [structure_inmate_data, h, pytruthy]
  simp

/-- Counterexample for C2: a detail page with 7 charge elements yields
number_of_charges 5, not 7 — scrape_inmate_details itself caps
extraction at five charges and counts only the extracted list, so the
count is not independent of the caps. -/
theorem c2_counterexample :
    (flatten_record (structure_inmate_data "TN"
        (scrape_inmate_details_dict "TS" "" "" "" "" "" []
          [⟨"c1", "", "", ""⟩, ⟨"c2", "", "", ""⟩, ⟨"c3", "", "", ""⟩,
           ⟨"c4", "", "", ""⟩, ⟨"c5", "", "", ""⟩, ⟨"c6", "", "", ""⟩,
           ⟨"c7", "", "", ""⟩]))).map (fun fr => dget fr "number_of_charges")
      = some (some (Value.vnat 5))
    ∧ ¬ (flatten_record (structure_inmate_data "TN"
        (scrape_inmate_details_dict "TS" "" "" "" "" "" []
          [⟨"c1", "", "", ""⟩, ⟨"c2", "", "", ""⟩, ⟨"c3", "", "", ""⟩,
           ⟨"c4", "", "", ""⟩, ⟨"c5", "", "", ""⟩, ⟨"c6", "", "", ""⟩,
           ⟨"c7", "", "", ""⟩]))).map (fun fr => dget fr "number_of_charges")
      = some (some (Value.vnat 7)) := by decide

/-- C2 as amended: an entity whose detail page carries 7 charge
elements produces an output row with exactly 3 indexed charge column
sets (charge1_, charge2_, charge3_ and no charge4_ through charge7_),
and its number_of_charges field is 5, the length of the extracted
charge list under the extraction cap of five, because no separate
total count is derived. -/
theorem c2_charge_cap_and_count (c1 c2 c3 c4 c5 c6 c7 : Charge) (missing : List String) :
    ∃ fr, flatten_record (structure_inmate_data "TN"
        (scrape_inmate_details_dict "TS" "" "" "" "" "" missing
          [c1, c2, c3, c4, c5, c6, c7])) = some fr
      ∧ dget fr "number_of_charges" = some (Value.vnat 5)
      ∧ containsKey fr "charge1_description" = true
      ∧ containsKey fr "charge2_description" = true
      ∧ containsKey fr "charge3_description" = true
      ∧ containsKey fr "charge4_description" = false
      ∧ containsKey fr "charge5_description" = false
      ∧ containsKey fr "charge6_description" = false
      ∧ containsKey fr "charge7_description" = false := by
  have hdet : scrape_inmate_details_dict "TS" "" "" "" "" "" missing
      [c1, c2, c3, c4, c5, c6, c7] =
      [("dob", Value.vstr ""), ("address", Value.vstr ""), ("city", Value.vstr ""),
       ("state", Value.vstr ""), ("zip", Value.vstr ""),
       ("charges", Value.vcharges [c1, c2, c3, c4, c5]),
       ("number_of_charges", Value.vnat 5),
       ("scrape_timestamp_utc", Value.vstr "TS"),
       ("missing_fields", Value.vstrs missing)] := by rfl
  rw [hdet]
  rw [structure_skip_address "TN" _ (by rfl)]
  set dl : Dict :=
      [("dob", Value.vstr ""), ("address", Value.vstr ""), ("city", Value.vstr ""),
       ("state", Value.vstr ""), ("zip", Value.vstr ""),
       ("charges", Value.vcharges [c1, c2, c3, c4, c5]),
       ("number_of_charges", Value.vnat 5),
       ("scrape_timestamp_utc", Value.vstr "TS"),
       ("missing_fields", Value.vstrs missing)] with hdl
  set st := structure_tail "TN" dl with hst
  have hch : dget dl "charges" = some (Value.vcharges [c1, c2, c3, c4, c5]) := by rfl
  have hchst : dget st "charges" = some (Value.vcharges [c1, c2, c3, c4, c5]) := by
    rw [hst, structure_tail_pres_other "TN" _ _ (by decide)]
    exact hch
  have hnum : dget st "number_of_charges" = some (Value.vnat 5) := by
    simpa using structure_tail_num "TN" dl [c1, c2, c3, c4, c5] hch
  have hfl : flatten_record st = some ((charge_cols [c1, c2, c3, c4, c5]).foldl
      (fun acc kv => dset acc kv.1 kv.2)
      (st.filter (fun kv => !(kv.1 == "charges")))) := by
    simp only [flatten_record, hchst, pytruthy]
    simp
  have hkeys : (charge_cols [c1, c2, c3, c4, c5]).map Prod.fst =
      ["charge1_description", "charge1_offense_date",
       "charge1_court_reference", "charge1_disposition",
       "charge2_description", "charge2_offense_date",
       "charge2_court_reference", "charge2_disposition",
       "charge3_description", "charge3_offense_date",
       "charge3_court_reference", "charge3_disposition"] := by
    simp [charge_cols, charge_items, List.enum, List.enumFrom, List.flatMap]
    decide
  have hflatnone : ∀ k : String, ¬ k = "charges" → ¬ k ∈ requiredFields →
      dget dl k = none →
      containsKey (st.filter (fun kv => !(kv.1 == "charges"))) k = false := by
    intro k h1 h2 h3
    simp only [containsKey]
    rw [dget_filter_ne _ _ _ h1, hst, structure_tail_pres_other "TN" _ _ h2, h3]
    rfl
  refine ⟨_, hfl, ?_, ?_, ?_, ?_, ?_, ?_, ?_, ?_⟩
  · rw [dget_foldl_dset_not_mem _ _ _ (by rw [hkeys]; decide),
      dget_filter_ne _ _ _ (by decide)]
    exact hnum
  · rw [containsKey_foldl_dset, hkeys,
      show (["charge1_description", "charge1_offense_date",
       "charge1_court_reference", "charge1_disposition",
       "charge2_description", "charge2_offense_date",
       "charge2_court_reference", "charge2_disposition",
       "charge3_description", "charge3_offense_date",
       "charge3_court_reference", "charge3_disposition"] : List String).contains
        "charge1_description" = true from by decide, Bool.or_true]
  · rw [containsKey_foldl_dset, hkeys,
      show (["charge1_description", "charge1_offense_date",
       "charge1_court_reference", "charge1_disposition",
       "charge2_description", "charge2_offense_date",
       "charge2_court_reference", "charge2_disposition",
       "charge3_description", "charge3_offense_date",
       "charge3_court_reference", "charge3_disposition"] : List String).contains
        "charge2_description" = true from by decide, Bool.or_true]
  · rw [containsKey_foldl_dset, hkeys,
      show (["charge1_description", "charge1_offense_date",
       "charge1_court_reference", "charge1_disposition",
       "charge2_description", "charge2_offense_date",
       "charge2_court_reference", "charge2_disposition",
       "charge3_description", "charge3_offense_date",
       "charge3_court_reference", "charge3_disposition"] : List String).contains
        "charge3_description" = true from by decide, Bool.or_true]
  · rw [containsKey_foldl_dset, hkeys, hflatnone _ (by decide) (by decide) (by rfl)]
    decide
  · rw [containsKey_foldl_dset, hkeys, hflatnone _ (by decide) (by decide) (by rfl)]
    decide
  · rw [containsKey_foldl_dset, hkeys, hflatnone _ (by decide) (by decide) (by rfl)]
    decide
  · rw [containsKey_foldl_dset, hkeys, hflatnone _ (by decide) (by decide) (by rfl)]
    decide

theorem getRow_none_of_not_load (s : Store) (id : String)
    (h : ¬ id ∈ load_processed_ids s) : getRow id s = none := by
  rw [getRow, List.find?_eq_none]
  intro r hr hp
  exact h (by
    rw [load_processed_ids, List.mem_map]
    exact ⟨r, hr, beq_iff_eq.mp hp⟩)

theorem countId_zero_of_not_load (s : Store) (id : String)
    (h : ¬ id ∈ load_processed_ids s) : countId id s = 0 := by
  rw [countId, List.length_eq_zero, List.filter_eq_nil_iff]
  intro r hr hp
  exact h (by
    rw [load_processed_ids, List.mem_map]
    exact ⟨r, hr, beq_iff_eq.mp hp⟩)

theorem countId_append (s t : Store) (id : String) :
    countId id (s ++ t) = countId id s + countId id t := by
  simp [countId, List.filter_append]

theorem getRow_map_namepres (f : Row → Row)
    (hf : ∀ r, (f r).name_number = r.name_number) (s : Store) (id : String) :
    getRow id (s.map f) = (getRow id s).map f := by
  rw [getRow, getRow, List.find?_map]
  rw [show ((fun r : Row => r.name_number == id) ∘ f) = fun r : Row => r.name_number == id by
    funext r
    simp [Function.comp, hf]]

theorem countId_map_namepres (f : Row → Row)
    (hf : ∀ r, (f r).name_number = r.name_number) (s : Store) (id : String) :
    countId id (s.map f) = countId id s := by
  rw [countId, countId, List.filter_map]
  rw [show ((fun r : Row => r.name_number == id) ∘ f) = fun r : Row => r.name_number == id by
    funext r
    simp [Function.comp, hf]]
  simp

theorem mark_present (t id : String) (s : Store)
    (h : (s.any (fun r => r.name_number == id)) = true) :
    mark_inmate_processed t id s = s := by
  rw [mark_inmate_processed, if_pos h]

theorem mark_getRow_self (t id : String) (s : Store) (h : getRow id s = none) :
    getRow id (mark_inmate_processed t id s) = some ⟨id, t, t, none⟩
    ∧ countId id (mark_inmate_processed t id s) = countId id s + 1 := by
  have hany : (s.any (fun r => r.name_number == id)) = false := by
    rw [List.any_eq_false]
    intro r hr
    rw [getRow, List.find?_eq_none] at h
    exact h r hr
  rw [mark_inmate_processed, if_neg (by rw [hany]; simp)]
  constructor
  · rw [getRow, List.find?_append]
    rw [getRow] at h
    rw [h]
    simp [List.find?_cons]
  · rw [countId_append]
    simp [countId, List.filter_cons]

theorem mark_getRow_ne (t i id : String) (s : Store) (h : i ≠ id) :
    getRow id (mark_inmate_processed t i s) = getRow id s
    ∧ countId id (mark_inmate_processed t i s) = countId id s := by
  rw [mark_inmate_processed]
  by_cases hany : (s.any (fun r => r.name_number == i)) = true
  · rw [if_pos hany]
    exact ⟨rfl, rfl⟩
  · rw [if_neg hany]
    have hne : ((⟨i, t, t, none⟩ : Row).name_number == id) = false := by
      simp [beq_eq_false_iff_ne]
      exact h
    constructor
    · rw [getRow, List.find?_append]
      cases hfd : getRow id s with
      | none =>
        rw [getRow] at hfd
        rw [hfd]
        simp [List.find?_cons, hne]
      | some r =>
        rw [getRow] at hfd
        rw [hfd]
        rfl
    · rw [countId_append]
      simp [countId, List.filter_cons, hne]

theorem mark_fold_keep (tM : String) (L : List String) (s : Store) (id : String) (r : Row)
    (h : getRow id s = some r) (hc : countId id s = 1) :
    getRow id (L.foldl (fun st i => mark_inmate_processed tM i st) s) = some r
    ∧ countId id (L.foldl (fun st i => mark_inmate_processed tM i st) s) = 1 := by
  induction L generalizing s with
  | nil => exact ⟨h, hc⟩
  | cons i L' ih =>
    simp only [List.foldl_cons]
    by_cases hi : i = id
    · subst hi
      have hany : (s.any (fun q => q.name_number == i)) = true := by
        rw [List.any_eq_true]
        refine ⟨r, List.mem_of_find?_eq_some h, ?_⟩
        exact List.find?_some (p := fun q : Row => q.name_number == i) h
      rw [mark_present tM i s hany]
      exact ih s h hc
    · obtain ⟨h1, h2⟩ := mark_getRow_ne tM i id s hi
      exact ih _ (by rw [h1]; exact h) (by rw [h2]; exact hc)

theorem mark_fold_new (tM : String) (L : List String) (s : Store) (id : String)
    (h0 : getRow id s = none) (hc0 : countId id s = 0) (hL : id ∈ L) :
    getRow id (L.foldl (fun st i => mark_inmate_processed tM i st) s)
        = some ⟨id, tM, tM, none⟩
    ∧ countId id (L.foldl (fun st i => mark_inmate_processed tM i st) s) = 1 := by
  induction L generalizing s with
  | nil => cases hL
  | cons i L' ih =>
    simp only [List.foldl_cons]
    by_cases hi : i = id
    · subst hi
      obtain ⟨h1, h2⟩ := mark_getRow_self tM i s h0
      exact mark_fold_keep tM L' _ i _ h1 (by rw [h2, hc0])
    · obtain ⟨h1, h2⟩ := mark_getRow_ne tM i id s hi
      have hL' : id ∈ L' := by
        rcases List.mem_cons.mp hL with hx | hx
        · exact absurd hx.symm hi
        · exact hx
      exact ih _ (by rw [h1]; exact h0) (by rw [h2]; exact hc0) hL'

theorem mem_load_mark_self (t i : String) (s : Store) :
    i ∈ load_processed_ids (mark_inmate_processed t i s) := by
  rw [mark_inmate_processed]
  by_cases hany : (s.any (fun r => r.name_number == i)) = true
  · rw [if_pos hany]
    obtain ⟨r, hr, hp⟩ := List.any_eq_true.mp hany
    rw [load_processed_ids, List.mem_map]
    exact ⟨r, hr, beq_iff_eq.mp hp⟩
  · rw [if_neg hany]
    rw [load_processed_ids, List.map_append]
    exact List.mem_append_right _ (by simp)

theorem mem_load_mark_mono (t i x : String) (s : Store)
    (h : x ∈ load_processed_ids s) :
    x ∈ load_processed_ids (mark_inmate_processed t i s) := by
  rw [mark_inmate_processed]
  by_cases hany : (s.any (fun r => r.name_number == i)) = true
  · rw [if_pos hany]
    exact h
  · rw [if_neg hany]
    rw [load_processed_ids, List.map_append]
    exact List.mem_append_left _ h

theorem mem_load_mark_fold (tM : String) (L : List String) (s : Store) (x : String)
    (h : x ∈ L ∨ x ∈ load_processed_ids s) :
    x ∈ load_processed_ids (L.foldl (fun st i => mark_inmate_processed tM i st) s) := by
  induction L generalizing s with
  | nil =>
    rcases h with h | h
    · cases h
    · exact h
  | cons i L' ih =>
    simp only [List.foldl_cons]
    rcases h with h | h
    · rcases List.mem_cons.mp h with hx | hx
      · subst hx
        exact ih _ (Or.inr (mem_load_mark_self tM x s))
      · exact ih _ (Or.inl hx)
    · exact ih _ (Or.inr (mem_load_mark_mono tM i x s h))

theorem load_update (t : String) (current : List String) (s : Store) :
    load_processed_ids (update_last_seen t current s) = load_processed_ids s := by
  rw [update_last_seen]
  by_cases hc : current.isEmpty
  · rw [if_pos hc]
  · rw [if_neg hc, load_processed_ids, load_processed_ids, List.map_map]
    congr 1
    funext r
    simp only [Function.comp]
    split <;> rfl

theorem load_release (t : String) (current : List String) (s : Store) :
    load_processed_ids (find_released_inmates t current s).2 = load_processed_ids s := by
  rw [find_released_inmates]
  rw [load_processed_ids, load_processed_ids, List.map_map]
  congr 1
  funext r
  simp only [Function.comp]
  split <;> (split <;> rfl)

theorem countId_update (t : String) (current : List String) (s : Store) (id : String) :
    countId id (update_last_seen t current s) = countId id s := by
  rw [update_last_seen]
  by_cases hc : current.isEmpty
  · rw [if_pos hc]
  · rw [if_neg hc]
    exact countId_map_namepres _ (fun r => by split <;> rfl) s id

theorem countId_release (t : String) (current : List String) (s : Store) (id : String) :
    countId id (find_released_inmates t current s).2 = countId id s := by
  rw [find_released_inmates]
  exact countId_map_namepres _ (fun r => by split <;> split <;> rfl) s id

theorem getRow_update_not_mem (t : String) (current : List String) (s : Store) (id : String)
    (h : ¬ id ∈ current) :
    getRow id (update_last_seen t current s) = getRow id s := by
  rw [update_last_seen]
  by_cases hc : current.isEmpty
  · rw [if_pos hc]
  · rw [if_neg hc]
    rw [getRow_map_namepres _ (fun r => by split <;> rfl) s id]
    cases hfd : getRow id s with
    | none => rfl
    | some r =>
      have hrn : r.name_number = id :=
        beq_iff_eq.mp (List.find?_some (p := fun q : Row => q.name_number == id) hfd)
      have : ¬ r.name_number ∈ current := by rw [hrn]; exact h
      simp [this]

theorem getRow_update_mem (t : String) (current : List String) (s : Store) (id : String)
    (hmem : id ∈ current) :
    getRow id (update_last_seen t current s)
      = (getRow id s).map (fun r => { r with last_seen_timestamp := t }) := by
  rw [update_last_seen]
  have hc : current.isEmpty = false := by
    cases current with
    | nil => cases hmem
    | cons a l => rfl
  rw [if_neg (by rw [hc]; simp)]
  rw [getRow_map_namepres _ (fun r => by split <;> rfl) s id]
  cases hfd : getRow id s with
  | none => rfl
  | some r =>
    have hrn : r.name_number = id :=
      beq_iff_eq.mp (List.find?_some (p := fun q : Row => q.name_number == id) hfd)
    have : r.name_number ∈ current := by rw [hrn]; exact hmem
    simp [this]

theorem countId_unique (s : Store) (id : String) (q r : Row)
    (hc : countId id s = 1)
    (hq : q ∈ s) (hqn : q.name_number = id)
    (hr : r ∈ s) (hrn : r.name_number = id) : q = r := by
  have hqf : q ∈ s.filter (fun x => x.name_number == id) :=
    List.mem_filter.mpr ⟨hq, by simp [hqn]⟩
  have hrf : r ∈ s.filter (fun x => x.name_number == id) :=
    List.mem_filter.mpr ⟨hr, by simp [hrn]⟩
  obtain ⟨x, hx⟩ := List.length_eq_one.mp hc
  rw [hx] at hqf hrf
  simp only [List.mem_singleton] at hqf hrf
  rw [hqf, hrf]

theorem WF_countId (s : Store) (id : String) (r : Row) (hwf : WF s)
    (hr : getRow id s = some r) : countId id s = 1 := by
  have hmem : r ∈ s.filter (fun x => x.name_number == id) :=
    List.mem_filter.mpr ⟨List.mem_of_find?_eq_some hr,
      List.find?_some (p := fun q : Row => q.name_number == id) hr⟩
  cases hfl : s.filter (fun x => x.name_number == id) with
  | nil =>
    rw [hfl] at hmem
    cases hmem
  | cons x xs =>
    cases hxs : xs with
    | nil =>
      rw [countId, hfl, hxs]
      rfl
    | cons y ys =>
      exfalso
      subst hxs
      have hsub : List.Sublist
          ((s.filter (fun q => q.name_number == id)).map Row.name_number)
          (s.map Row.name_number) :=
        (List.filter_sublist s).map Row.name_number
      have hnd := hwf.sublist hsub
      rw [hfl] at hnd
      have hx : x.name_number = id := by
        have : x ∈ s.filter (fun q => q.name_number == id) := by
          rw [hfl]
          exact List.mem_cons_self x _
        exact beq_iff_eq.mp
          (List.of_mem_filter (p := fun q : Row => q.name_number == id) this)
      have hy : y.name_number = id := by
        have : y ∈ s.filter (fun q => q.name_number == id) := by
          rw [hfl]
          exact List.mem_cons_of_mem _ (List.mem_cons_self y _)
        exact beq_iff_eq.mp
          (List.of_mem_filter (p := fun q : Row => q.name_number == id) this)
      simp only [List.map_cons, List.nodup_cons, List.mem_cons, List.mem_map] at hnd
      exact hnd.1 (Or.inl (hy.trans hx.symm).symm)

theorem mem_released_elim (t : String) (current : List String) (s : Store) (x : String)
    (h : x ∈ (find_released_inmates t current s).1) :
    ∃ q ∈ s, q.name_number = x ∧ q.date_released = none ∧
      (current.isEmpty = true ∨ ¬ x ∈ current) := by
  rw [find_released_inmates] at h
  by_cases hc : current.isEmpty = true
  · rw [if_pos hc] at h
    simp only [List.mem_map, List.mem_filter, Option.isNone_iff_eq_none] at h
    obtain ⟨q, ⟨hq, hnone⟩, hname⟩ := h
    exact ⟨q, hq, hname, hnone, Or.inl hc⟩
  · rw [if_neg hc] at h
    simp only [List.mem_map, List.mem_filter, Bool.and_eq_true,
      Option.isNone_iff_eq_none, Bool.not_eq_true'] at h
    obtain ⟨q, ⟨hq, hnone, hnc⟩, hname⟩ := h
    refine ⟨q, hq, hname, hnone, Or.inr ?_⟩
    intro hmem
    rw [← hname] at hmem
    rw [List.contains_eq_any_beq] at hnc
    have : current.any (fun y => q.name_number == y) = true := by
      rw [List.any_eq_true]
      exact ⟨q.name_number, hmem, by simp⟩
    rw [this] at hnc
    cases hnc

theorem mem_released_intro (t : String) (current : List String) (s : Store) (q : Row)
    (hq : q ∈ s) (hnone : q.date_released = none) (hnc : ¬ q.name_number ∈ current) :
    q.name_number ∈ (find_released_inmates t current s).1 := by
  rw [find_released_inmates]
  by_cases hc : current.isEmpty = true
  · rw [if_pos hc]
    simp only [List.mem_map, List.mem_filter, Option.isNone_iff_eq_none]
    exact ⟨q, ⟨hq, hnone⟩, rfl⟩
  · rw [if_neg hc]
    simp only [List.mem_map, List.mem_filter, Bool.and_eq_true,
      Option.isNone_iff_eq_none, Bool.not_eq_true']
    refine ⟨q, ⟨hq, hnone, ?_⟩, rfl⟩
    rw [List.contains_eq_any_beq]
    rw [List.any_eq_false]
    intro y hy
    simp only [beq_iff_eq]
    intro hcontra
    exact hnc (by rw [hcontra]; exact hy)

theorem release_store_none_mem (t : String) (current : List String) (s : Store) :
    ∀ r ∈ (find_released_inmates t current s).2, r.date_released = none →
      r.name_number ∈ current := by
  intro r hr hnone
  rw [find_released_inmates] at hr
  simp only [List.mem_map] at hr
  obtain ⟨q, hq, hqr⟩ := hr
  set rel := (if current.isEmpty = true then
      (s.filter (fun v => v.date_released.isNone)).map Row.name_number
    else
      (s.filter (fun v =>
        v.date_released.isNone && !(current.contains v.name_number))).map
          Row.name_number) with hrel
  by_cases hcont : (rel.contains q.name_number) = true
  · rw [if_pos hcont] at hqr
    rw [← hqr] at hnone
    simp at hnone
  · rw [if_neg hcont] at hqr
    rw [← hqr]
    by_cases hin : q.name_number ∈ current
    · exact hin
    · exfalso
      apply hcont
      have hmem : q.name_number ∈
          (find_released_inmates t current s).1 :=
        mem_released_intro t current s q hq (by rw [hqr]; exact hnone) hin
      rw [hrel, List.contains_eq_any_beq, List.any_eq_true]
      exact ⟨q.name_number, hmem, by simp⟩

theorem update_row_src (t : String) (c : List String) (s : Store) :
    ∀ q ∈ update_last_seen t c s, ∃ q0 ∈ s,
      q0.name_number = q.name_number ∧ q0.date_released = q.date_released := by
  intro q hq
  rw [update_last_seen] at hq
  by_cases hc : c.isEmpty = true
  · rw [if_pos hc] at hq
    exact ⟨q, hq, rfl, rfl⟩
  · rw [if_neg hc] at hq
    simp only [List.mem_map] at hq
    obtain ⟨q0, hq0, hqe⟩ := hq
    refine ⟨q0, hq0, ?_, ?_⟩ <;> (rw [← hqe]; split <;> rfl)

theorem getRow_release_keep (t : String) (current : List String) (s : Store)
    (id : String) (r : Row)
    (h : getRow id s = some r) (hc : countId id s = 1)
    (hkeep : (∃ d, r.date_released = some d) ∨ id ∈ current) :
    getRow id (find_released_inmates t current s).2 = some r := by
  have hrn : r.name_number = id :=
    beq_iff_eq.mp (List.find?_some (p := fun q : Row => q.name_number == id) h)
  have hnc : ¬ r.name_number ∈ (find_released_inmates t current s).1 := by
    intro hmem
    obtain ⟨q, hqs, hqn, hqnone, hdisj⟩ := mem_released_elim t current s r.name_number hmem
    have hq_eq_r : q = r :=
      countId_unique s id q r hc hqs (hqn.trans hrn) (List.mem_of_find?_eq_some h) hrn
    rcases hkeep with ⟨d, hd⟩ | hcur
    · rw [hq_eq_r, hd] at hqnone
      cases hqnone
    · rcases hdisj with hE | hnm
      · cases current with
        | nil => cases hcur
        | cons a l => cases hE
      · exact hnm (by rw [hrn]; exact hcur)
  have hncb : ((find_released_inmates t current s).1.contains r.name_number) = false := by
    rw [List.contains_eq_any_beq, List.any_eq_false]
    intro y hy
    simp only [beq_iff_eq]
    intro hcontra
    exact hnc (by rw [hcontra]; exact hy)
  rw [show (find_released_inmates t current s).2
      = s.map (fun q =>
          if ((find_released_inmates t current s).1.contains q.name_number) = true then
            { q with date_released := some t }
          else q) from rfl]
  rw [getRow_map_namepres _ (fun q => by split <;> rfl) s id, h]
  simp only [Option.map_some']
  rw [hncb]
  simp

/-- Counterexample for C1: the store holds identifier A already marked
released, and A reappears on the roster.  The spec formula classifies A
as new, but the run classifies nothing as new: load_processed_ids
returns released identifiers too. -/
theorem c1_counterexample :
    (run_hourly_scrape "t2" "t3" "t4" [⟨"A", "t0", "t0", some "t1"⟩] ["A"]).newIds = []
    ∧ spec_newIds [⟨"A", "t0", "t0", some "t1"⟩] ["A"] = ["A"] := by decide

/-- C1 as amended: the set classified as new equals the current roster
identifiers minus ALL stored identifiers (whether or not released_ts is
set); in particular an identifier already marked released that
reappears on the roster is NOT classified as new. -/
theorem c1_new_ids_roster_minus_stored (tM tS tR : String) (s : Store)
    (current : List String) (id : String) :
    (id ∈ (run_hourly_scrape tM tS tR s current).newIds
      ↔ id ∈ current ∧ ¬ id ∈ load_processed_ids s)
    ∧ (∀ r, r ∈ s → r.name_number = id →
        ¬ id ∈ (run_hourly_scrape tM tS tR s current).newIds) := by
  have hiff : id ∈ (run_hourly_scrape tM tS tR s current).newIds
      ↔ id ∈ current ∧ ¬ id ∈ load_processed_ids s := by
    simp only [run_hourly_scrape, List.mem_filter, Bool.not_eq_true',
      List.contains_eq_any_beq, List.any_eq_false, beq_iff_eq]
    constructor
    · rintro ⟨h1, h2⟩
      exact ⟨h1, fun hmem => by simpa using h2 id hmem⟩
    · rintro ⟨h1, h2⟩
      exact ⟨h1, fun x hx hxid => h2 (by rw [hxid]; exact hx)⟩
  refine ⟨hiff, ?_⟩
  intro r hrs hrn hmem
  exact (hiff.mp hmem).2 (by
    rw [load_processed_ids, List.mem_map]
    exact ⟨r, hrs, hrn⟩)

/-- Witness for C1 as amended, at the counterexample input. -/
theorem c1_new_ids_roster_minus_stored_witness :
    ("A" ∈ (run_hourly_scrape "t2" "t3" "t4" [⟨"A", "t0", "t0", some "t1"⟩] ["A"]).newIds
      ↔ "A" ∈ ["A"] ∧ ¬ "A" ∈ load_processed_ids [⟨"A", "t0", "t0", some "t1"⟩])
    ∧ (∀ r, r ∈ ([⟨"A", "t0", "t0", some "t1"⟩] : Store) → r.name_number = "A" →
        ¬ "A" ∈ (run_hourly_scrape "t2" "t3" "t4"
          [⟨"A", "t0", "t0", some "t1"⟩] ["A"]).newIds) :=
  c1_new_ids_roster_minus_stored "t2" "t3" "t4" [⟨"A", "t0", "t0", some "t1"⟩] ["A"] "A"

/-- Counterexample for C3: identifier A is new for an empty store; the
insert uses timestamp t0 but the later update_last_seen pass of the
same run overwrites last_seen_timestamp with its own timestamp t1, so
after the run first_seen_timestamp differs from last_seen_timestamp. -/
theorem c3_counterexample :
    (run_hourly_scrape "t0" "t1" "t1" [] ["A"]).newIds = ["A"]
    ∧ (run_hourly_scrape "t0" "t1" "t1" [] ["A"]).store = [⟨"A", "t0", "t1", none⟩]
    ∧ ((run_hourly_scrape "t0" "t1" "t1" [] ["A"]).store.all
        (fun r => r.first_seen_timestamp == r.last_seen_timestamp)) = false := by decide

/-- C3 as amended: for every identifier classified as new, after the
run the store holds exactly one record for it, and that record carries
the insert timestamp as first_seen_ts and the update_last_seen
timestamp of the same run as last_seen_ts — the two coincide only when
those two timestamps are equal, not in general. -/
theorem c3_new_row_unique (tM tS tR : String) (s : Store) (current : List String)
    (id : String)
    (h : id ∈ (run_hourly_scrape tM tS tR s current).newIds) :
    countId id (run_hourly_scrape tM tS tR s current).store = 1
    ∧ getRow id (run_hourly_scrape tM tS tR s current).store
        = some ⟨id, tM, tS, none⟩ := by
  simp only [run_hourly_scrape, List.mem_filter, Bool.not_eq_true',
    List.contains_eq_any_beq, List.any_eq_false, beq_iff_eq] at h
  obtain ⟨hcur, hno⟩ := h
  have hnot : ¬ id ∈ load_processed_ids s := fun hmem => by simpa using hno id hmem
  have h0 : getRow id s = none := getRow_none_of_not_load s id hnot
  have hc0 : countId id s = 0 := countId_zero_of_not_load s id hnot
  have hidnew : id ∈ current.filter
      (fun i => !((load_processed_ids s).contains i)) := by
    rw [List.mem_filter]
    refine ⟨hcur, ?_⟩
    simp only [Bool.not_eq_true', List.contains_eq_any_beq, List.any_eq_false,
      beq_iff_eq]
    intro x hx hxid
    exact hnot (by rw [hxid]; exact hx)
  obtain ⟨h1, h2⟩ := mark_fold_new tM
    (current.filter (fun i => !((load_processed_ids s).contains i))) s id h0 hc0 hidnew
  have h3 : getRow id (update_last_seen tS current
      ((current.filter (fun i => !((load_processed_ids s).contains i))).foldl
        (fun st i => mark_inmate_processed tM i st) s)) = some ⟨id, tM, tS, none⟩ := by
    rw [getRow_update_mem tS current _ id hcur, h1]
    rfl
  have h4 : countId id (update_last_seen tS current
      ((current.filter (fun i => !((load_processed_ids s).contains i))).foldl
        (fun st i => mark_inmate_processed tM i st) s)) = 1 := by
    rw [countId_update]
    exact h2
  have h5 := getRow_release_keep tR current _ id _ h3 h4 (Or.inr hcur)
  have h6 : countId id (find_released_inmates tR current (update_last_seen tS current
      ((current.filter (fun i => !((load_processed_ids s).contains i))).foldl
        (fun st i => mark_inmate_processed tM i st) s))).2 = 1 := by
    rw [countId_release]
    exact h4
  exact ⟨by simpa [run_hourly_scrape] using h6, by simpa [run_hourly_scrape] using h5⟩

/-- Witness for C3 as amended: identifier A new on an empty store. -/
theorem c3_new_row_unique_witness :
    countId "A" (run_hourly_scrape "t0" "t1" "t1" [] ["A"]).store = 1
    ∧ getRow "A" (run_hourly_scrape "t0" "t1" "t1" [] ["A"]).store
        = some ⟨"A", "t0", "t1", none⟩ :=
  c3_new_row_unique "t0" "t1" "t1" [] ["A"] "A" (by decide)

/-- C4: once date_released is set for an identifier, a reconciliation
run whose roster again excludes that identifier leaves the stored
record — in particular its date_released value — unchanged. -/
theorem c4_released_monotone (tM tS tR d : String) (s : Store) (current : List String)
    (id : String) (r : Row) (hwf : WF s) (hr : getRow id s = some r)
    (hrel : r.date_released = some d) (hc : ¬ id ∈ current) :
    getRow id (run_hourly_scrape tM tS tR s current).store = some r
    ∧ (getRow id (run_hourly_scrape tM tS tR s current).store).map
        Row.date_released = some (some d) := by
  have hc1 : countId id s = 1 := WF_countId s id r hwf hr
  obtain ⟨h1, h2⟩ := mark_fold_keep tM
    (current.filter (fun i => !((load_processed_ids s).contains i))) s id r hr hc1
  have h3 : getRow id (update_last_seen tS current
      ((current.filter (fun i => !((load_processed_ids s).contains i))).foldl
        (fun st i => mark_inmate_processed tM i st) s)) = some r := by
    rw [getRow_update_not_mem tS current _ id hc]
    exact h1
  have h4 : countId id (update_last_seen tS current
      ((current.filter (fun i => !((load_processed_ids s).contains i))).foldl
        (fun st i => mark_inmate_processed tM i st) s)) = 1 := by
    rw [countId_update]
    exact h2
  have h5 := getRow_release_keep tR current _ id _ h3 h4 (Or.inl ⟨d, hrel⟩)
  have h6 : getRow id (run_hourly_scrape tM tS tR s current).store = some r := by
    simpa [run_hourly_scrape] using h5
  exact ⟨h6, by rw [h6]; simpa using hrel⟩

/-- Witness for C4: a store holding only released identifier A and a
roster that excludes A. -/
theorem c4_released_monotone_witness :
    WF [⟨"A", "t0", "t0", some "t1"⟩]
    ∧ getRow "A" (run_hourly_scrape "t2" "t2" "t2"
        [⟨"A", "t0", "t0", some "t1"⟩] ["B"]).store = some ⟨"A", "t0", "t0", some "t1"⟩ :=
  ⟨by unfold WF; decide,
   (c4_released_monotone "t2" "t2" "t2" "t1" [⟨"A", "t0", "t0", some "t1"⟩] ["B"] "A"
     ⟨"A", "t0", "t0", some "t1"⟩ (by unfold WF; decide) (by decide) (by decide)
     (by decide)).1⟩

/-- C5: reconciliation is idempotent — a second run over the store left
by a first run with the same roster set classifies nothing as new and
releases nothing, for every starting store and every roster set. -/
theorem c5_reconcile_idempotent (tM tS tR tM' tS' tR' : String) (s : Store)
    (current : List String) :
    (run_hourly_scrape tM' tS' tR'
        (run_hourly_scrape tM tS tR s current).store current).newIds = []
    ∧ (run_hourly_scrape tM' tS' tR'
        (run_hourly_scrape tM tS tR s current).store current).released = [] := by
  set s3 := (run_hourly_scrape tM tS tR s current).store with hs3
  have hs3eq : s3 = (find_released_inmates tR current (update_last_seen tS current
      ((current.filter (fun i => !((load_processed_ids s).contains i))).foldl
        (fun st i => mark_inmate_processed tM i st) s))).2 := by
    rw [hs3]
    simp only [run_hourly_scrape]
  have hall : ∀ id ∈ current, id ∈ load_processed_ids s3 := by
    intro id hid
    rw [hs3eq, load_release, load_update]
    apply mem_load_mark_fold
    by_cases hmem : id ∈ load_processed_ids s
    · exact Or.inr hmem
    · refine Or.inl ?_
      rw [List.mem_filter]
      refine ⟨hid, ?_⟩
      simp only [Bool.not_eq_true', List.contains_eq_any_beq, List.any_eq_false,
        beq_iff_eq]
      intro x hx hxid
      exact hmem (by rw [hxid]; exact hx)
  have hnew : current.filter (fun i => !((load_processed_ids s3).contains i)) = [] := by
    rw [List.filter_eq_nil_iff]
    intro a ha
    have hc : ((load_processed_ids s3).contains a) = true := by
      rw [List.contains_eq_any_beq, List.any_eq_true]
      exact ⟨a, hall a ha, by simp⟩
    intro hcontra
    rw [hc] at hcontra
    simp at hcontra
  constructor
  · simp only [run_hourly_scrape]
    exact hnew
  · simp only [run_hourly_scrape]
    rw [hnew]
    simp only [List.foldl_nil]
    rw [List.eq_nil_iff_forall_not_mem]
    intro x hx
    obtain ⟨q, hq, hqn, hqnone, hdisj⟩ :=
      mem_released_elim tR' current (update_last_seen tS' current s3) x hx
    obtain ⟨q0, hq0, hq0n, hq0rel⟩ := update_row_src tS' current s3 q hq
    have hq0none : q0.date_released = none := by rw [hq0rel]; exact hqnone
    have hq0cur : q0.name_number ∈ current := by
      apply release_store_none_mem tR current (update_last_seen tS current
        ((current.filter (fun i => !((load_processed_ids s).contains i))).foldl
          (fun st i => mark_inmate_processed tM i st) s)) q0 _ hq0none
      rw [← hs3eq]
      exact hq0
    rcases hdisj with hE | hnm
    · rw [List.isEmpty_iff] at hE
      rw [hE] at hq0cur
      cases hq0cur
    · exact hnm (by rw [← hqn, ← hq0n]; exact hq0cur)

/-- C10: calling find_released_inmates with the empty set as the
current roster returns exactly the identifiers whose date_released is
unset and sets date_released for every one of them. -/
theorem c10_empty_roster_releases_all (t : String) (s : Store) (hwf : WF s) :
    (find_released_inmates t [] s).1 = activeIds s
    ∧ (find_released_inmates t [] s).2
        = s.map (fun r => if r.date_released.isNone = true then
            { r with date_released := some t } else r) := by
  refine ⟨rfl, ?_⟩
  rw [show (find_released_inmates t [] s).2
      = s.map (fun r =>
          if (((s.filter (fun v => v.date_released.isNone)).map
              Row.name_number).contains r.name_number) = true then
            { r with date_released := some t }
          else r) from rfl]
  apply List.map_congr_left
  intro r hr
  by_cases hnone : r.date_released.isNone = true
  · rw [if_pos hnone]
    have hcont : (((s.filter (fun v => v.date_released.isNone)).map
        Row.name_number).contains r.name_number) = true := by
      rw [List.contains_eq_any_beq, List.any_eq_true]
      refine ⟨r.name_number, ?_, by simp⟩
      exact mem_released_intro t [] s r hr (Option.isNone_iff_eq_none.mp hnone)
        (by simp)
    rw [if_pos hcont]
  · rw [if_neg hnone]
    have hcont : (((s.filter (fun v => v.date_released.isNone)).map
        Row.name_number).contains r.name_number) = false := by
      rw [List.contains_eq_any_beq, List.any_eq_false]
      intro y hy
      simp only [beq_iff_eq]
      intro hxy
      obtain ⟨p, hpf, hpn⟩ := List.mem_map.mp hy
      have hpmem := List.mem_filter.mp hpf
      have hpr : p = r := by
        apply List.inj_on_of_nodup_map hwf hpmem.1 hr
        rw [hpn, hxy]
      rw [hpr] at hpmem
      exact hnone hpmem.2
    rw [if_neg (by rw [hcont]; simp)]

/-- Witness for C10: a store with one active and one released row. -/
theorem c10_empty_roster_releases_all_witness :
    (find_released_inmates "t2" [] [⟨"A", "t0", "t0", none⟩, ⟨"B", "t0", "t0", some "t1"⟩]).1
      = activeIds [⟨"A", "t0", "t0", none⟩, ⟨"B", "t0", "t0", some "t1"⟩]
    ∧ (find_released_inmates "t2" []
        [⟨"A", "t0", "t0", none⟩, ⟨"B", "t0", "t0", some "t1"⟩]).2
      = ([⟨"A", "t0", "t0", none⟩, ⟨"B", "t0", "t0", some "t1"⟩] : Store).map
          (fun r => if r.date_released.isNone = true then
            { r with date_released := some "t2" } else r) :=
  c10_empty_roster_releases_all "t2" [⟨"A", "t0", "t0", none⟩, ⟨"B", "t0", "t0", some "t1"⟩]
    (by unfold WF; decide)

theorem mapM_eq_some_of_forall (g : Dict → Option Dict) (l : List Dict)
    (h : ∀ r ∈ l, ¬ g r = none) :
    l.mapM g = some (l.map (fun r => (g r).getD [])) := by
  induction l with
  | nil => rfl
  | cons a t ih =>
    cases hga : g a with
    | none => exact absurd hga (h a (List.mem_cons_self a t))
    | some d =>
      rw [List.mapM_cons, hga, ih (fun r hr => h r (List.mem_cons_of_mem a hr))]
      simp [hga]

theorem headersOf_rows {α : Type} (L : List α) (h : α → List (Option Value)) :
    (L.map (fun r => CsvLine.row (h r))).filterMap (fun l =>
      match l with
      | .header cs => some cs
      | .row _ => none) = [] := by
  induction L with
  | nil => rfl
  | cons a t ih => simp

/-- C8: a nonempty batch whose records all flatten cleanly is appended
with result True; a header line is added exactly when the file did not
exist or was empty, and that header is the sorted union of the keys of
the flattened batch; the resulting file is nonempty, so a following
append adds no header; an empty batch returns False and leaves the
file untouched. -/
theorem c8_header_once (tNow : String) (batch : List Dict) (f : FileState)
    (hne : ¬ batch = [])
    (hok : ∀ r ∈ batch, ¬ flatten_record (structure_inmate_data tNow r) = none) :
    (write_to_csv tNow batch f).1 = true
    ∧ headersOf (write_to_csv tNow batch f).2
        = headersOf f ++ (if file_exists_nonempty f = true then [] else
            [unionKeys (batch.map (fun r =>
              (flatten_record (structure_inmate_data tNow r)).getD []))])
    ∧ file_exists_nonempty (write_to_csv tNow batch f).2 = true
    ∧ (∀ g : FileState, write_to_csv tNow [] g = (false, g)) := by
  have hm := mapM_eq_some_of_forall
    (fun r => flatten_record (structure_inmate_data tNow r)) batch hok
  have hbe : batch.isEmpty = false := by
    cases batch with
    | nil => exact absurd rfl hne
    | cons a t => rfl
  have hw : write_to_csv tNow batch f =
      (true, some ((f.getD []) ++
        (if file_exists_nonempty f then [] else
          [CsvLine.header (unionKeys (batch.map (fun r =>
            (flatten_record (structure_inmate_data tNow r)).getD [])))]) ++
        (batch.map (fun r =>
          (flatten_record (structure_inmate_data tNow r)).getD [])).map
          (fun r => CsvLine.row ((unionKeys (batch.map (fun r =>
            (flatten_record (structure_inmate_data tNow r)).getD []))).map
            (fun k => dget r k))))) := by
    rw [write_to_csv, if_neg (by rw [hbe]; simp), hm]
  refine ⟨by rw [hw], ?_, ?_, fun g => rfl⟩
  · rw [hw]
    show ((f.getD []) ++ _ ++ _).filterMap _ = _
    rw [List.filterMap_append, List.filterMap_append]
    rw [headersOf_rows]
    rw [List.append_nil]
    congr 1
    by_cases hfe : file_exists_nonempty f = true
    · rw [if_pos hfe, if_pos hfe]
      rfl
    · rw [if_neg hfe, if_neg hfe]
      rfl
  · rw [hw]
    show (!((f.getD []) ++ _ ++ _).isEmpty) = true
    cases batch with
    | nil => exact absurd rfl hne
    | cons a t =>
      simp [List.isEmpty_iff, List.append_eq_nil]

/-- Witness for C8: a one-record batch appended to a missing file. -/
theorem c8_header_once_witness :
    ¬ ([[("a", Value.vstr "1")]] : List Dict) = []
    ∧ ((write_to_csv "T" [[("a", Value.vstr "1")]] none).1 = true
    ∧ headersOf (write_to_csv "T" [[("a", Value.vstr "1")]] none).2
        = headersOf none ++ (if file_exists_nonempty none = true then [] else
            [unionKeys (([[("a", Value.vstr "1")]] : List Dict).map (fun r =>
              (flatten_record (structure_inmate_data "T" r)).getD []))])
    ∧ file_exists_nonempty (write_to_csv "T" [[("a", Value.vstr "1")]] none).2 = true
    ∧ (∀ g : FileState, write_to_csv "T" [] g = (false, g))) :=
  ⟨by decide,
   c8_header_once "T" [[("a", Value.vstr "1")]] none (by decide) (by decide)⟩

theorem process_roster_rows (tNow tProc tMark : String)
    (detailsOf : String → Option Dict) (processed : List String)
    (inmates : List Dict) :
    ∀ (acc : List Dict) (st : Store),
    (inmates.foldl (fun acc2 inmate =>
      let nn := inmate_name_number inmate
      if processed.contains nn then acc2
      else
        match detailsOf nn with
        | some det =>
          (acc2.1 ++ [dset (structure_inmate_data tNow (pymerge inmate det))
            "timestamp_processed_utc" (Value.vstr tProc)],
           mark_inmate_processed tMark nn acc2.2)
        | none => (acc2.1, mark_inmate_processed tMark nn acc2.2)) (acc, st)).1
      = acc ++ (inmates.filter (fun i =>
          !(processed.contains (inmate_name_number i))
            && (detailsOf (inmate_name_number i)).isSome)).map
          (fun i => dset (structure_inmate_data tNow
            (pymerge i ((detailsOf (inmate_name_number i)).getD [])))
            "timestamp_processed_utc" (Value.vstr tProc)) := by
  induction inmates with
  | nil =>
    intro acc st
    simp
  | cons a t ih =>
    intro acc st
    simp only [List.foldl_cons, List.filter_cons]
    by_cases hp : (processed.contains (inmate_name_number a)) = true
    · rw [if_pos hp]
      rw [show (!(processed.contains (inmate_name_number a))
          && (detailsOf (inmate_name_number a)).isSome) = false by rw [hp]; rfl]
      simp only [Bool.false_eq_true, if_false]
      exact ih acc st
    · rw [if_neg hp]
      cases hdet : detailsOf (inmate_name_number a) with
      | some det =>
        have hb : (!(processed.contains (inmate_name_number a))
            && (some det : Option Dict).isSome) = true := by
          cases hpc : processed.contains (inmate_name_number a) with
          | true => exact absurd hpc hp
          | false => rfl
        rw [if_pos hb]
        simp only [List.map_cons]
        rw [ih _ _, hdet]
        simp [List.append_assoc]
      | none =>
        have hb : ¬ (!(processed.contains (inmate_name_number a))
            && (none : Option Dict).isSome) = true := by simp
        rw [if_neg hb]
        exact ih acc (mark_inmate_processed tMark (inmate_name_number a) st)

theorem process_roster_store_mono (tNow tProc tMark : String)
    (detailsOf : String → Option Dict) (processed : List String)
    (inmates : List Dict) :
    ∀ (acc : List Dict) (st : Store) (x : String), x ∈ load_processed_ids st →
    x ∈ load_processed_ids (inmates.foldl (fun acc2 inmate =>
      let nn := inmate_name_number inmate
      if processed.contains nn then acc2
      else
        match detailsOf nn with
        | some det =>
          (acc2.1 ++ [dset (structure_inmate_data tNow (pymerge inmate det))
            "timestamp_processed_utc" (Value.vstr tProc)],
           mark_inmate_processed tMark nn acc2.2)
        | none => (acc2.1, mark_inmate_processed tMark nn acc2.2)) (acc, st)).2 := by
  induction inmates with
  | nil =>
    intro acc st x hx
    exact hx
  | cons a t ih =>
    intro acc st x hx
    simp only [List.foldl_cons]
    by_cases hp : (processed.contains (inmate_name_number a)) = true
    · rw [if_pos hp]
      exact ih acc st x hx
    · rw [if_neg hp]
      cases hdet : detailsOf (inmate_name_number a) with
      | some det => exact ih _ _ x (mem_load_mark_mono _ _ _ _ hx)
      | none => exact ih _ _ x (mem_load_mark_mono _ _ _ _ hx)

theorem process_roster_marks (tNow tProc tMark : String)
    (detailsOf : String → Option Dict) (processed : List String)
    (inmates : List Dict) (id : String)
    (hnew : ¬ id ∈ processed) :
    ∀ (acc : List Dict) (st : Store),
    (∃ inmate ∈ inmates, inmate_name_number inmate = id) →
    id ∈ load_processed_ids (inmates.foldl (fun acc2 inmate =>
      let nn := inmate_name_number inmate
      if processed.contains nn then acc2
      else
        match detailsOf nn with
        | some det =>
          (acc2.1 ++ [dset (structure_inmate_data tNow (pymerge inmate det))
            "timestamp_processed_utc" (Value.vstr tProc)],
           mark_inmate_processed tMark nn acc2.2)
        | none => (acc2.1, mark_inmate_processed tMark nn acc2.2)) (acc, st)).2 := by
  induction inmates with
  | nil =>
    rintro acc st ⟨inmate, hmem, _⟩
    cases hmem
  | cons a t ih =>
    rintro acc st ⟨inmate, hmem, hnn⟩
    simp only [List.foldl_cons]
    rcases List.mem_cons.mp hmem with hha | hht
    · subst hha
      have hp : (processed.contains (inmate_name_number inmate)) = false := by
        rw [hnn, List.contains_eq_any_beq, List.any_eq_false]
        intro y hy
        simp only [beq_iff_eq]
        intro hcontra
        exact hnew (by rw [hcontra]; exact hy)
      rw [if_neg (by rw [hp]; simp)]
      cases hdet : detailsOf (inmate_name_number inmate) with
      | some det =>
        apply process_roster_store_mono
        rw [← hnn]
        exact mem_load_mark_self tMark (inmate_name_number inmate) st
      | none =>
        apply process_roster_store_mono
        rw [← hnn]
        exact mem_load_mark_self tMark (inmate_name_number inmate) st
    · by_cases hp : (processed.contains (inmate_name_number a)) = true
      · rw [if_pos hp]
        exact ih acc st ⟨inmate, hht, hnn⟩
      · rw [if_neg hp]
        cases hdet : detailsOf (inmate_name_number a) with
        | some det => exact ih _ _ ⟨inmate, hht, hnn⟩
        | none => exact ih _ _ ⟨inmate, hht, hnn⟩

/-- C9: an identifier whose detail extraction fails (the detail oracle
yields none, the embedding of every failure return of
scrape_inmate_details) is still marked processed in the store, while
the collected output rows are exactly those of the new identifiers
whose details succeeded — the failing identifier contributes no row
and the loop continues over the remaining identifiers. -/
theorem c9_detail_failure_skips (tNow tProc tMark : String)
    (detailsOf : String → Option Dict) (processed : List String)
    (inmates : List Dict) (st : Store) (id : String)
    (hfail : detailsOf id = none)
    (hin : ∃ inmate ∈ inmates, inmate_name_number inmate = id)
    (hnew : ¬ id ∈ processed) :
    ((process_roster tNow tProc tMark detailsOf processed inmates st).1
      = (inmates.filter (fun i =>
          !(processed.contains (inmate_name_number i))
            && (detailsOf (inmate_name_number i)).isSome)).map
          (fun i => dset (structure_inmate_data tNow
            (pymerge i ((detailsOf (inmate_name_number i)).getD [])))
            "timestamp_processed_utc" (Value.vstr tProc)))
    ∧ (¬ id ∈ (inmates.filter (fun i =>
          !(processed.contains (inmate_name_number i))
            && (detailsOf (inmate_name_number i)).isSome)).map inmate_name_number)
    ∧ id ∈ load_processed_ids
        (process_roster tNow tProc tMark detailsOf processed inmates st).2 := by
  refine ⟨?_, ?_, ?_⟩
  · rw [process_roster]
    exact process_roster_rows tNow tProc tMark detailsOf processed inmates [] st
  · intro hmem
    obtain ⟨i, hif, hinn⟩ := List.mem_map.mp hmem
    have hpred := List.of_mem_filter hif
    rw [hinn, hfail] at hpred
    simp at hpred
  · rw [process_roster]
    exact process_roster_marks tNow tProc tMark detailsOf processed inmates id hnew
      [] st hin

/-- Witness for C9: one new inmate A whose detail scrape fails. -/
theorem c9_detail_failure_skips_witness :
    ((process_roster "TN" "TP" "TM" (fun _ => none) []
        [[("name_number", Value.vstr "A")]] []).1
      = (([[("name_number", Value.vstr "A")]] : List Dict).filter (fun i =>
          !(([] : List String).contains (inmate_name_number i))
            && ((fun _ : String => (none : Option Dict)) (inmate_name_number i)).isSome)).map
          (fun i => dset (structure_inmate_data "TN"
            (pymerge i (((fun _ : String => (none : Option Dict))
              (inmate_name_number i)).getD [])))
            "timestamp_processed_utc" (Value.vstr "TP")))
    ∧ (¬ "A" ∈ (([[("name_number", Value.vstr "A")]] : List Dict).filter (fun i =>
          !(([] : List String).contains (inmate_name_number i))
            && ((fun _ : String => (none : Option Dict))
              (inmate_name_number i)).isSome)).map inmate_name_number)
    ∧ "A" ∈ load_processed_ids
        (process_roster "TN" "TP" "TM" (fun _ => none) []
          [[("name_number", Value.vstr "A")]] []).2 :=
  c9_detail_failure_skips "TN" "TP" "TM" (fun _ => none) []
    [[("name_number", Value.vstr "A")]] [] "A" rfl
    ⟨[("name_number", Value.vstr "A")], by decide, by decide⟩ (by decide)
